import Mathlib

/-!
Verification development for the hydroponic monitoring dashboard
(`app.py`).  The data-transformation and threshold-alerting pipeline is
shallowly embedded: pandas frames become Lean lists, numeric cell values
become rationals, and every embedded definition mirrors one function or
module-level statement of the source.
-/

namespace Atlas

/-- Severity tier emitted by the threshold evaluator alert cards. -/
inductive Severity where
  | Critical
  | Warning
  | Normal
deriving DecidableEq, Repr

/-- Embeds `get_yield_insight` (app.py): `if avg_yield < 30` Critical,
`elif avg_yield < 50` Warning, else Normal. -/
def get_yield_insight (avg_yield : ℚ) : Severity :=
  if avg_yield < 30 then .Critical
  else if avg_yield < 50 then .Warning
  else .Normal

/-- Embeds `get_ph_insight` (app.py): `if avg_ph < 5.2` Critical,
`elif avg_ph > 6.8` Critical, `elif avg_ph < 5.5 or avg_ph > 6.5`
Warning, else Normal. -/
def get_ph_insight (avg_ph : ℚ) : Severity :=
  if avg_ph < 5.2 then .Critical
  else if avg_ph > 6.8 then .Critical
  else if avg_ph < 5.5 ∨ avg_ph > 6.5 then .Warning
  else .Normal

/-- Which branch of `get_ec_insight` fires (the code distinguishes a
too-low and a too-high Critical card). -/
inductive ECBranch where
  | tooLow
  | tooHigh
  | warning
  | normal
deriving DecidableEq, Repr

/-- Severity of each `get_ec_insight` branch. -/
def ECBranch.severity : ECBranch → Severity
  | .tooLow => .Critical
  | .tooHigh => .Critical
  | .warning => .Warning
  | .normal => .Normal

/-- Embeds the branch structure of `get_ec_insight` (app.py):
`if avg_ec < 0.7` too-low Critical, `elif avg_ec > 2.5` too-high
Critical, `elif avg_ec < 1.0 or avg_ec > 2.0` Warning, else Normal. -/
def ec_classify (avg_ec : ℚ) : ECBranch :=
  if avg_ec < 0.7 then .tooLow
  else if avg_ec > 2.5 then .tooHigh
  else if avg_ec < 1.0 ∨ avg_ec > 2.0 then .warning
  else .normal

/-- Embeds `avg_ec = 3.33  # Hardcoded mS/cm` from `get_ec_insight`:
the EC evaluator reads this constant, not the measurements dataset. -/
def avg_ec : ℚ := 3.33

/-- Embeds `get_ec_insight` (app.py): classifies the hardcoded constant.
The function takes no measurement input in the source. -/
def get_ec_insight : ECBranch := ec_classify avg_ec

/-- Embeds `get_light_insight` (app.py):
`total_light = min(avg_natural + artificial, 24)`;
`if total_light < 6` Critical, else Normal. -/
def get_light_insight (avg_natural artificial : ℚ) : Severity :=
  let total_light := min (avg_natural + artificial) 24
  if total_light < 6 then .Critical else .Normal

/-- Embeds `get_leaf_size_insight` (app.py): `if avg_leaf_size < 2.0`
Critical, `elif avg_leaf_size < 3.0` Warning, else Normal. -/
def get_leaf_size_insight (avg_leaf_size : ℚ) : Severity :=
  if avg_leaf_size < 2.0 then .Critical
  else if avg_leaf_size < 3.0 then .Warning
  else .Normal

/-- Embeds `get_brix_insight` (app.py): `if avg_brix < 6` Critical,
`elif avg_brix < 8` Warning, else Normal. -/
def get_brix_insight (avg_brix : ℚ) : Severity :=
  if avg_brix < 6 then .Critical
  else if avg_brix < 8 then .Warning
  else .Normal

/-- Accumulating decimal parse of a digit run; `none` on a non-digit. -/
def digitsVal : List Char → ℕ → Option ℕ
  | [], acc => some acc
  | c :: cs, acc =>
    if c.isDigit then digitsVal cs (acc * 10 + (c.toNat - 48)) else none

/-- A clock field is a non-empty digit run. -/
def fieldNat : List Char → Option ℕ
  | [] => none
  | cs => digitsVal cs 0

/-- Splits a character list on colons (structural helper for the
`HH:MM:SS` format accepted by `pd.to_timedelta`). -/
def splitColons : List Char → List (List Char)
  | [] => [[]]
  | c :: cs =>
    let rest := splitColons cs
    if c = ':' then [] :: rest
    else
      match rest with
      | [] => [[c]]
      | g :: gs => (c :: g) :: gs

/-- Parses an `"HH:MM:SS"` clock string into (hours, minutes, seconds). -/
def parseClock (s : String) : Option (ℕ × ℕ × ℕ) :=
  match (splitColons s.data).map fieldNat with
  | [some h, some m, some sec] => some (h, m, sec)
  | _ => none

/-- Total seconds represented by an (hours, minutes, seconds) triple —
the value `pd.to_timedelta(...).dt.total_seconds()` yields on an
`HH:MM:SS` string. -/
def clockTotalSeconds (h m s : ℕ) : ℕ := 3600 * h + 60 * m + s

/-- Embeds the sun-data cleaning statement (app.py): `"Hours of
Daylight"` is replaced by
`pd.to_timedelta(...).dt.total_seconds() / 3600`. -/
def hoursOfDaylight (s : String) : Option ℚ :=
  (parseClock s).map fun p => (clockTotalSeconds p.1 p.2.1 p.2.2 : ℚ) / 3600

/-- Embeds the `Plant` column derivation for `plant_growth` (app.py):
`plant_growth["Level"].astype(str) + "-" + plant_growth["Side"].astype(str)`. -/
def growth_plant_id (level side : String) : String := level ++ "-" ++ side

/-- Embeds the `Plant` column derivation for `plant_harvest` (app.py):
`plant_harvest["Level"].astype(str) + "-" + plant_harvest["Side"].astype(str)`. -/
def harvest_plant_id (level side : String) : String := level ++ "-" ++ side

/-- One row of the `unit_measurements` frame; sensor cells that arrived
as empty strings were replaced by `pd.NA`, modelled as `none`. -/
structure MeasurementRecord where
  timestamp : String
  depth : Option ℚ
  pH : Option ℚ
  ec : Option ℚ
  ppm : Option ℚ
  temperature : Option ℚ
deriving DecidableEq, Repr

/-- The five key columns of `dropna(subset=[...])` are all present. -/
def MeasurementRecord.hasCoreFields (r : MeasurementRecord) : Bool :=
  r.depth.isSome && r.pH.isSome && r.ec.isSome && r.ppm.isSome &&
    r.temperature.isSome

/-- Embeds `unit_measurements_chart = unit_measurements.dropna(subset=
["Depth", "pH", "EC", "PPM", "Temperature"])` (app.py); the original
frame `unit_measurements` is not reassigned. -/
def unit_measurements_chart (unit_measurements : List MeasurementRecord) :
    List MeasurementRecord :=
  unit_measurements.filter MeasurementRecord.hasCoreFields

/-- A growth-frame row for aggregation: a parsed date key and the
values of the `k` numeric columns selected by `select_dtypes`. -/
abbrev GrowthRow (k : ℕ) : Type := Int × (Fin k → ℚ)

/-- The date keys of a list of rows. -/
def datesOf {k : ℕ} (rows : List (GrowthRow k)) : List Int :=
  rows.map Prod.fst

/-- The rows of the group keyed by date `d`. -/
def rowsOn {k : ℕ} (rows : List (GrowthRow k)) (d : Int) :
    List (GrowthRow k) :=
  rows.filter (fun r => r.1 = d)

/-- Mean of numeric column `i` over the group keyed by `d`. -/
def groupMean {k : ℕ} (rows : List (GrowthRow k)) (d : Int) (i : Fin k) : ℚ :=
  ((rowsOn rows d).map (fun r => r.2 i)).sum / ((rowsOn rows d).length : ℚ)

/-- Embeds `plant_growth.groupby("Date")[numeric_columns].mean()
.reset_index()` (app.py): one output row per distinct date key, keys in
ascending order (pandas `groupby` sorts keys), each numeric column
averaged within its group.  The same definition covers the per-plant
callback path, which first filters `plant_growth` to one plant and then
runs the identical groupby-mean. -/
def plant_growth_summary {k : ℕ} (rows : List (GrowthRow k)) :
    List (GrowthRow k) :=
  ((datesOf rows).toFinset.sort (· ≤ ·)).map
    (fun d => (d, fun i => groupMean rows d i))

/-- A raw JSON row returned by the remote service: field-value pairs. -/
abbrev RawRow := List (String × String)

/-- A loaded row after `.replace("", pd.NA)`: empty cells are `none`. -/
abbrev CleanRow := List (String × Option String)

/-- An HTTP response as observed by `fetch_data`. -/
structure Response where
  status_code : ℕ
  json : List RawRow

/-- Cell normalisation of `pd.DataFrame(response.json()).replace("",
pd.NA)` (app.py): the empty string becomes the missing sentinel. -/
def cleanCell (s : String) : Option String :=
  if s = "" then none else some s

/-- Embeds `fetch_data` (app.py): `if response.status_code == 200`
return the cleaned frame, otherwise `return pd.DataFrame()` — the
empty frame, an ordinary value. -/
def fetch_data (response : Response) : List CleanRow :=
  if response.status_code = 200 then
    response.json.map (fun row => row.map (fun cell => (cell.1, cleanCell cell.2)))
  else []

/-- Embeds the module-level load (app.py): the five datasets come from
five independent `fetch_data` calls in a generator expression, one per
endpoint. -/
def load_datasets (responses : Fin 5 → Response) : Fin 5 → List CleanRow :=
  fun i => fetch_data (responses i)

/-- Error condition for the projector: `df[column].iloc[-1]` raises on
an empty frame; the rewrite treats this as an explicit error. -/
inductive ProjError where
  | emptySeries
deriving DecidableEq, Repr

/-- The projection loop of `extend_growth_data` (app.py): each step
multiplies the running value by `growth_rate + fluctuation` and appends
it, where the `i`-th draw `np.random.uniform(-noise_factor,
noise_factor)` is modelled by the oracle `noise i`. -/
def projLoop (growth_rate : ℚ) (noise : ℕ → ℚ) : ℚ → ℕ → ℕ → List ℚ
  | _, _, 0 => []
  | v, i, n + 1 =>
    let v2 := v * (growth_rate + noise i)
    v2 :: projLoop growth_rate noise v2 (i + 1) n

/-- Embeds `extend_growth_data(df, column, days=10, growth_rate=1.02,
noise_factor=0.03)` (app.py): base value `df[column].iloc[-1]` (last
row), future dates `pd.date_range(df["Date"].max() + 1 day, periods=
days)` (dates as day numbers), values from the multiplicative loop. -/
def extend_growth_data (df : List (Int × ℚ)) (noise : ℕ → ℚ)
    (days : ℕ) (growth_rate : ℚ) : Except ProjError (List (Int × ℚ)) :=
  match df.getLast? with
  | none => .error .emptySeries
  | some last =>
    let maxDate := (df.map Prod.fst).foldl max last.1
    let future_dates := (List.range days).map (fun j : ℕ => maxDate + 1 + (j : Int))
    .ok (future_dates.zip (projLoop growth_rate noise last.2 0 days))

/-- Product of the `m` multiplicative factors starting at noise index
`i`. -/
def noiseProd (growth_rate : ℚ) (noise : ℕ → ℚ) (i m : ℕ) : ℚ :=
  ((List.range m).map (fun j => growth_rate + noise (i + j))).prod

theorem projLoop_length (growth_rate : ℚ) (noise : ℕ → ℚ) :
    ∀ (n i : ℕ) (v : ℚ), (projLoop growth_rate noise v i n).length = n := by
  intro n
  induction n with
  | zero => intro i v; rfl
  | succ m ih =>
    intro i v
    simp only [projLoop, List.length_cons, ih]

theorem noiseProd_zero (growth_rate : ℚ) (noise : ℕ → ℚ) (i : ℕ) :
    noiseProd growth_rate noise i 0 = 1 := rfl

theorem noiseProd_succ_left (growth_rate : ℚ) (noise : ℕ → ℚ) (i m : ℕ) :
    noiseProd growth_rate noise i (m + 1) =
      (growth_rate + noise i) * noiseProd growth_rate noise (i + 1) m := by
  induction m generalizing i with
  | zero =>
    unfold noiseProd
    have h1 : List.range 1 = [0] := rfl
    simp [h1]
  | succ m ih =>
    unfold noiseProd at *
    rw [List.range_succ, List.map_append, List.prod_append, ih i,
      List.range_succ, List.map_append, List.prod_append]
    simp only [List.map_cons, List.map_nil, List.prod_cons, List.prod_nil]
    have harg : i + (m + 1) = i + 1 + m := by omega
    rw [harg]
    ring

theorem noiseProd_succ_right (growth_rate : ℚ) (noise : ℕ → ℚ) (i m : ℕ) :
    noiseProd growth_rate noise i (m + 1) =
      noiseProd growth_rate noise i m * (growth_rate + noise (i + m)) := by
  unfold noiseProd
  rw [List.range_succ, List.map_append, List.prod_append]
  simp

theorem projLoop_getElem (growth_rate : ℚ) (noise : ℕ → ℚ) :
    ∀ (n i : ℕ) (v : ℚ) (k : ℕ)
      (hk : k < (projLoop growth_rate noise v i n).length),
      (projLoop growth_rate noise v i n).get ⟨k, hk⟩ =
        v * noiseProd growth_rate noise i (k + 1) := by
  intro n
  induction n with
  | zero =>
    intro i v k hk
    simp [projLoop] at hk
  | succ m ih =>
    intro i v k hk
    cases k with
    | zero =>
      show v * (growth_rate + noise i) = _
      rw [noiseProd_succ_left, noiseProd_zero]
      ring
    | succ k =>
      have hk2 : k < (projLoop growth_rate noise
          (v * (growth_rate + noise i)) (i + 1) m).length := by
        rw [projLoop_length]
        rw [projLoop_length] at hk
        omega
      show (projLoop growth_rate noise
          (v * (growth_rate + noise i)) (i + 1) m).get ⟨k, hk2⟩ = _
      rw [ih (i + 1) (v * (growth_rate + noise i)) k hk2,
        noiseProd_succ_left growth_rate noise i (k + 1)]
      ring

theorem zip_get {α β : Type} : ∀ (as : List α) (bs : List β) (k : ℕ)
    (h : k < (as.zip bs).length) (ha : k < as.length) (hb : k < bs.length),
    (as.zip bs).get ⟨k, h⟩ = (as.get ⟨k, ha⟩, bs.get ⟨k, hb⟩) := by
  intro as
  induction as with
  | nil =>
    intro bs k h ha hb
    simp at ha
  | cons a as ih =>
    intro bs k h ha hb
    cases bs with
    | nil => simp at hb
    | cons b bs =>
      cases k with
      | zero => rfl
      | succ k =>
        exact ih bs k (by simpa using h) (by simpa using ha) (by simpa using hb)

theorem get_future_dates (d : Int) : ∀ (n k : ℕ)
    (hk : k < ((List.range n).map (fun j : ℕ => d + 1 + (j : Int))).length),
    ((List.range n).map (fun j : ℕ => d + 1 + (j : Int))).get ⟨k, hk⟩ =
      d + 1 + (k : Int) := by
  intro n k hk
  simp only [List.get_eq_getElem, List.getElem_map, List.getElem_range]

theorem noiseProd_bounds (growth_rate noise_factor : ℚ) (noise : ℕ → ℚ)
    (hnf : noise_factor ≤ growth_rate) :
    ∀ (m : ℕ),
      (∀ j, j < m → -noise_factor ≤ noise j ∧ noise j ≤ noise_factor) →
      (growth_rate - noise_factor) ^ m ≤ noiseProd growth_rate noise 0 m ∧
        noiseProd growth_rate noise 0 m ≤ (growth_rate + noise_factor) ^ m := by
  intro m
  induction m with
  | zero =>
    intro _
    rw [noiseProd_zero]
    simp
  | succ m ih =>
    intro hnoise
    obtain ⟨hPa, hPb⟩ := ih (fun j hj => hnoise j (by omega))
    obtain ⟨hlo, hhi⟩ := hnoise m (by omega)
    have ha : (0 : ℚ) ≤ growth_rate - noise_factor := by linarith
    have hb : (0 : ℚ) ≤ growth_rate + noise_factor := by linarith
    have haf : growth_rate - noise_factor ≤ growth_rate + noise m := by linarith
    have hfb : growth_rate + noise m ≤ growth_rate + noise_factor := by linarith
    have hP0 : (0 : ℚ) ≤ noiseProd growth_rate noise 0 m :=
      le_trans (pow_nonneg ha m) hPa
    rw [noiseProd_succ_right]
    simp only [Nat.zero_add]
    constructor
    · calc (growth_rate - noise_factor) ^ (m + 1)
          = (growth_rate - noise_factor) ^ m * (growth_rate - noise_factor) := by
            rw [pow_succ]
        _ ≤ noiseProd growth_rate noise 0 m * (growth_rate + noise m) :=
            mul_le_mul hPa haf ha hP0
    · calc noiseProd growth_rate noise 0 m * (growth_rate + noise m)
          ≤ (growth_rate + noise_factor) ^ m * (growth_rate + noise_factor) :=
            mul_le_mul hPb hfb (le_trans ha haf) (pow_nonneg hb m)
        _ = (growth_rate + noise_factor) ^ (m + 1) := by rw [pow_succ]

theorem foldl_max_of_le {l : List Int} :
    ∀ {x : Int}, (∀ y ∈ l, y ≤ x) → l.foldl max x = x := by
  induction l with
  | nil => intro x _; rfl
  | cons a t ih =>
    intro x h
    simp only [List.foldl_cons]
    have hax : max x a = x := max_eq_left (h a (by simp))
    rw [hax]
    exact ih (fun y hy => h y (by simp [hy]))

theorem mem_of_getLast_some : ∀ (l : List Int) (d : Int),
    l.getLast? = some d → d ∈ l := by
  intro l
  induction l with
  | nil => intro d hd; simp at hd
  | cons a t ih =>
    intro d hd
    cases t with
    | nil =>
      simp at hd
      simp [hd]
    | cons b t2 =>
      rw [List.getLast?_cons_cons] at hd
      exact List.mem_cons_of_mem a (ih d hd)

theorem sorted_mem_le_getLast : ∀ (l : List Int), l.Sorted (· ≤ ·) →
    ∀ (d : Int), l.getLast? = some d → ∀ y ∈ l, y ≤ d := by
  intro l
  induction l with
  | nil => intro _ d _ y hy; simp at hy
  | cons a t ih =>
    intro hs d hd y hy
    rw [List.sorted_cons] at hs
    cases t with
    | nil =>
      simp at hd hy
      omega
    | cons b t2 =>
      rw [List.getLast?_cons_cons] at hd
      rcases List.mem_cons.mp hy with hya | hyt
      · subst hya
        exact hs.1 d (mem_of_getLast_some _ d hd)
      · exact ih hs.2 d hd y hyt

theorem getLast?_map_fst : ∀ (df : List (Int × ℚ)),
    (df.map Prod.fst).getLast? = Option.map Prod.fst df.getLast? := by
  intro df
  induction df with
  | nil => rfl
  | cons p t ih =>
    cases t with
    | nil => rfl
    | cons q t2 =>
      simp only [List.map_cons] at *
      rw [List.getLast?_cons_cons, List.getLast?_cons_cons]
      exact ih

end Atlas

namespace Atlas

/-- C1: the threshold evaluator is total (each real-valued aggregate gets
exactly one tier, characterised by the stated bands): for yield,
`< 30` is Critical, `[30, 50)` is Warning (so `30` is Warning), and
`≥ 50` is Normal (so `50` is Normal); for pH, `< 5.2` or `> 6.8` is
Critical, `[5.2, 5.5)` or `(6.5, 6.8]` is Warning, and `[5.5, 6.5]` is
Normal. -/
theorem yield_ph_bands (x : ℚ) :
    (get_yield_insight x = .Critical ↔ x < 30) ∧
    (get_yield_insight x = .Warning ↔ 30 ≤ x ∧ x < 50) ∧
    (get_yield_insight x = .Normal ↔ 50 ≤ x) ∧
    get_yield_insight 30 = .Warning ∧
    get_yield_insight 50 = .Normal ∧
    (get_ph_insight x = .Critical ↔ x < 5.2 ∨ x > 6.8) ∧
    (get_ph_insight x = .Warning ↔ (5.2 ≤ x ∧ x < 5.5) ∨ (6.5 < x ∧ x ≤ 6.8)) ∧
    (get_ph_insight x = .Normal ↔ 5.5 ≤ x ∧ x ≤ 6.5) := by
  refine ⟨?_, ?_, ?_, ?_, ?_, ?_, ?_, ?_⟩
  · unfold get_yield_insight
    split_ifs with h1 h2
    · exact iff_of_true rfl h1
    · exact iff_of_false (by decide) (by intro h; linarith)
    · exact iff_of_false (by decide) (by intro h; linarith)
  · unfold get_yield_insight
    split_ifs with h1 h2
    · exact iff_of_false (by decide) (by rintro ⟨ha, hb⟩; linarith)
    · exact iff_of_true rfl ⟨by linarith, h2⟩
    · exact iff_of_false (by decide) (by rintro ⟨ha, hb⟩; linarith)
  · unfold get_yield_insight
    split_ifs with h1 h2
    · exact iff_of_false (by decide) (by intro h; linarith)
    · exact iff_of_false (by decide) (by intro h; linarith)
    · exact iff_of_true rfl (by linarith)
  · norm_num [get_yield_insight]
  · norm_num [get_yield_insight]
  · unfold get_ph_insight
    split_ifs with h1 h2 h3
    · exact iff_of_true rfl (Or.inl h1)
    · exact iff_of_true rfl (Or.inr h2)
    · exact iff_of_false (by decide) (by rintro (h | h) <;> linarith)
    · exact iff_of_false (by decide) (by rintro (h | h) <;> linarith)
  · unfold get_ph_insight
    split_ifs with h1 h2 h3
    · exact iff_of_false (by decide) (by rintro (⟨ha, hb⟩ | ⟨ha, hb⟩) <;> linarith)
    · exact iff_of_false (by decide) (by rintro (⟨ha, hb⟩ | ⟨ha, hb⟩) <;> linarith)
    · refine iff_of_true rfl ?_
      rcases h3 with h3 | h3
      · exact Or.inl ⟨by linarith, h3⟩
      · exact Or.inr ⟨h3, by linarith⟩
    · refine iff_of_false (by decide) ?_
      rintro (⟨ha, hb⟩ | ⟨ha, hb⟩)
      · exact h3 (Or.inl hb)
      · exact h3 (Or.inr ha)
  · unfold get_ph_insight
    split_ifs with h1 h2 h3
    · exact iff_of_false (by decide) (by rintro ⟨ha, hb⟩; linarith)
    · exact iff_of_false (by decide) (by rintro ⟨ha, hb⟩; linarith)
    · exact iff_of_false (by decide) (by rintro ⟨ha, hb⟩; rcases h3 with h3 | h3 <;> linarith)
    · push_neg at h3
      exact iff_of_true rfl ⟨h3.1, h3.2⟩

/-- C9: `get_light_insight` computes total light as natural plus
artificial capped at 24 and classifies into exactly two tiers:
Critical iff the capped total is below 6, Normal otherwise; the Warning
tier is never produced. -/
theorem light_two_tiers (n a : ℚ) :
    (get_light_insight n a = .Critical ↔ min (n + a) 24 < 6) ∧
    (get_light_insight n a = .Normal ↔ ¬ min (n + a) 24 < 6) ∧
    get_light_insight n a ≠ .Warning := by
  by_cases h : min (n + a) 24 < 6 <;> simp [get_light_insight, h]

/-- C10: the EC evaluator reads the fixed constant 3.33 mS/cm (not a
live aggregate), and since 3.33 exceeds 2.5 it takes the too-high
Critical branch on every invocation. -/
theorem ec_always_critical_high :
    avg_ec = 3.33 ∧
    get_ec_insight = .tooHigh ∧
    get_ec_insight.severity = .Critical := by
  have h : get_ec_insight = .tooHigh := by
    unfold get_ec_insight ec_classify avg_ec
    norm_num
  exact ⟨rfl, h, by rw [h]; rfl⟩

/-- C6: a daylight duration of h hours, m minutes and s seconds
converts to decimal hours `h + m/60 + s/3600`; in particular the
clock string `"06:30:00"` converts to 6.5. -/
theorem daylight_decimal_hours (h m s : ℕ) :
    (clockTotalSeconds h m s : ℚ) / 3600 = (h : ℚ) + m / 60 + s / 3600 ∧
    hoursOfDaylight "06:30:00" = some 6.5 := by
  constructor
  · unfold clockTotalSeconds
    push_cast
    ring
  · have hp : parseClock "06:30:00" = some (6, 30, 0) := by decide
    rw [hoursOfDaylight, hp]
    norm_num [clockTotalSeconds]

/-- C7: for every (level, side) pair the derived plant identifier is
`level ++ "-" ++ side`, and the growth-dataset derivation and the
harvest-dataset derivation are the same function. -/
theorem plant_id_concat (level side : String) :
    growth_plant_id level side = level ++ "-" ++ side ∧
    growth_plant_id level side = harvest_plant_id level side :=
  ⟨rfl, rfl⟩

/-- C8: the filtered measurements view contains exactly the rows whose
depth, pH, EC, PPM and temperature are all present; a row with a
missing core field is excluded from the view but is still a row of the
raw dataset. -/
theorem chart_filter_exact (rows : List MeasurementRecord)
    (r : MeasurementRecord) :
    (r ∈ unit_measurements_chart rows ↔
      r ∈ rows ∧ r.depth.isSome ∧ r.pH.isSome ∧ r.ec.isSome ∧
        r.ppm.isSome ∧ r.temperature.isSome) ∧
    (r ∈ rows ∧ ¬ r.hasCoreFields = true →
      r ∉ unit_measurements_chart rows ∧ r ∈ rows) := by
  have hiff : r ∈ unit_measurements_chart rows ↔
      r ∈ rows ∧ r.hasCoreFields = true := List.mem_filter
  constructor
  · rw [hiff]
    unfold MeasurementRecord.hasCoreFields
    simp [and_assoc]
  · rintro ⟨hr, hmiss⟩
    refine ⟨fun hc => hmiss (hiff.mp hc).2, hr⟩

/-- C3: the aggregated growth summary has exactly one row per distinct
date of the input (its date keys are strictly sorted and carry the same
dates as the input), and each numeric column of an output row is the
arithmetic mean of that column over the input rows sharing its date. -/
theorem summary_groupby_mean {k : ℕ} (rows : List (GrowthRow k)) :
    List.Sorted (· < ·) ((plant_growth_summary rows).map Prod.fst) ∧
    (∀ d : Int,
      d ∈ (plant_growth_summary rows).map Prod.fst ↔ d ∈ datesOf rows) ∧
    (∀ p ∈ plant_growth_summary rows, ∀ i : Fin k,
      p.2 i = ((rowsOn rows p.1).map (fun r => r.2 i)).sum /
        ((rowsOn rows p.1).length : ℚ)) := by
  have hfst : (plant_growth_summary rows).map Prod.fst
      = (datesOf rows).toFinset.sort (· ≤ ·) := by
    unfold plant_growth_summary
    rw [List.map_map]
    have hid : (Prod.fst ∘ fun d : Int => ((d, fun i => groupMean rows d i) :
        GrowthRow k)) = id := rfl
    rw [hid, List.map_id]
  refine ⟨?_, ?_, ?_⟩
  · rw [hfst]
    exact Finset.sort_sorted_lt _
  · intro d
    rw [hfst, Finset.mem_sort, List.mem_toFinset]
  · intro p hp i
    unfold plant_growth_summary at hp
    rw [List.mem_map] at hp
    obtain ⟨d, hd, hpd⟩ := hp
    subst hpd
    rfl

/-- C2: on a non-empty summary series sorted by date with last row
(d, v), for any noise draws each within [-noise_factor, noise_factor]
(with noise_factor at most growth_rate, so every multiplicative factor
is non-negative), the projector succeeds and emits exactly `days` rows;
the row at index k carries date d + 1 + k (dates strictly increasing,
one day apart, starting the day after d) and a value lying between
v·(growth_rate − noise_factor)^(k+1) and
v·(growth_rate + noise_factor)^(k+1). -/
theorem projection_shape_and_bounds
    (df : List (Int × ℚ)) (noise : ℕ → ℚ) (days : ℕ)
    (growth_rate noise_factor : ℚ) (d : Int) (v : ℚ)
    (hlast : df.getLast? = some (d, v))
    (hsorted : List.Sorted (· ≤ ·) (df.map Prod.fst))
    (hnoise : ∀ i, i < days → -noise_factor ≤ noise i ∧ noise i ≤ noise_factor)
    (hnf : noise_factor ≤ growth_rate) :
    ∃ rows : List (Int × ℚ),
      extend_growth_data df noise days growth_rate = .ok rows ∧
      rows.length = days ∧
      ∀ (k : ℕ) (hk : k < rows.length),
        (rows.get ⟨k, hk⟩).1 = d + 1 + (k : Int) ∧
        min (v * (growth_rate - noise_factor) ^ (k + 1))
            (v * (growth_rate + noise_factor) ^ (k + 1)) ≤
          (rows.get ⟨k, hk⟩).2 ∧
        (rows.get ⟨k, hk⟩).2 ≤
          max (v * (growth_rate - noise_factor) ^ (k + 1))
              (v * (growth_rate + noise_factor) ^ (k + 1)) := by
  have hmax : (df.map Prod.fst).foldl max d = d := by
    apply foldl_max_of_le
    intro y hy
    refine sorted_mem_le_getLast _ hsorted d ?_ y hy
    rw [getLast?_map_fst, hlast]
    rfl
  have hmain : extend_growth_data df noise days growth_rate =
      .ok (((List.range days).map (fun j : ℕ => d + 1 + (j : Int))).zip
        (projLoop growth_rate noise v 0 days)) := by
    unfold extend_growth_data
    rw [hlast]
    show Except.ok (((List.range days).map
        (fun j : ℕ => (df.map Prod.fst).foldl max d + 1 + (j : Int))).zip
      (projLoop growth_rate noise v 0 days)) = _
    rw [hmax]
  have hlenA : ((List.range days).map
      (fun j : ℕ => d + 1 + (j : Int))).length = days := by
    rw [List.length_map, List.length_range]
  have hlenB : (projLoop growth_rate noise v 0 days).length = days :=
    projLoop_length growth_rate noise days 0 v
  refine ⟨_, hmain, ?_, ?_⟩
  · rw [List.length_zip, hlenA, hlenB, min_self]
  · intro k hk
    have hklen : k < days := by
      rw [List.length_zip, hlenA, hlenB, min_self] at hk
      exact hk
    have hka : k < ((List.range days).map
        (fun j : ℕ => d + 1 + (j : Int))).length := by
      rw [hlenA]
      exact hklen
    have hkb : k < (projLoop growth_rate noise v 0 days).length := by
      rw [hlenB]
      exact hklen
    rw [zip_get _ _ k hk hka hkb, get_future_dates d days k hka,
      projLoop_getElem growth_rate noise days 0 v k hkb]
    obtain ⟨hPa, hPb⟩ := noiseProd_bounds growth_rate noise_factor noise hnf
      (k + 1) (fun j hj => hnoise j (by omega))
    refine ⟨rfl, ?_, ?_⟩
    · rcases le_or_lt 0 v with hv | hv
      · refine le_trans (min_le_left _ _) ?_
        exact mul_le_mul_of_nonneg_left hPa hv
      · refine le_trans (min_le_right _ _) ?_
        exact mul_le_mul_of_nonpos_left hPb (le_of_lt hv)
    · rcases le_or_lt 0 v with hv | hv
      · refine le_trans ?_ (le_max_right _ _)
        exact mul_le_mul_of_nonneg_left hPb hv
      · refine le_trans ?_ (le_max_left _ _)
        exact mul_le_mul_of_nonpos_left hPa (le_of_lt hv)

/-- C2 witness: the projection theorem instantiated on the one-row
series [(0, 1)] with zero noise, two days, and the default growth rate
1.02 and noise amplitude 0.03. -/
theorem projection_shape_and_bounds_witness :
    ∃ rows : List (Int × ℚ),
      extend_growth_data [((0 : Int), (1 : ℚ))] (fun _ => 0) 2 1.02 =
        .ok rows ∧
      rows.length = 2 ∧
      ∀ (k : ℕ) (hk : k < rows.length),
        (rows.get ⟨k, hk⟩).1 = 0 + 1 + (k : Int) ∧
        min ((1 : ℚ) * (1.02 - 0.03) ^ (k + 1))
            ((1 : ℚ) * (1.02 + 0.03) ^ (k + 1)) ≤ (rows.get ⟨k, hk⟩).2 ∧
        (rows.get ⟨k, hk⟩).2 ≤
          max ((1 : ℚ) * (1.02 - 0.03) ^ (k + 1))
              ((1 : ℚ) * (1.02 + 0.03) ^ (k + 1)) :=
  projection_shape_and_bounds [((0 : Int), (1 : ℚ))] (fun _ => 0) 2
    1.02 0.03 0 1 rfl (by simp) (fun i _ => by norm_num) (by norm_num)

/-- C4: on an input series with fewer than one row the projector fails
with the empty-series error (the source raises on `iloc[-1]`), rather
than silently projecting from a zero base. -/
theorem projector_empty_series (noise : ℕ → ℚ) (days : ℕ)
    (growth_rate : ℚ) :
    extend_growth_data [] noise days growth_rate =
      .error .emptySeries := rfl

/-- C5 counterexample: on a non-success response (status 404, non-empty
body) `fetch_data` returns the ordinary empty frame — the very value a
successful fetch of an empty dataset returns — so the Data Loader does
not fail with a `DataUnavailableError` (or any error) for that
dataset. -/
theorem fetch_no_error_on_failure :
    fetch_data ⟨404, [[("A", "1")]]⟩ = ([] : List CleanRow) ∧
    fetch_data ⟨404, [[("A", "1")]]⟩ = fetch_data ⟨200, []⟩ :=
  ⟨rfl, rfl⟩

/-- C5 amended: when the remote fetch for one dataset fails (non-200
status), the loader yields the empty dataset for it — no error is
signalled — and each dataset's load depends only on its own response,
so one dataset's failure leaves the loading of the other datasets
unaffected (per-dataset isolation). -/
theorem loader_failsoft (responses : Fin 5 → Response) (i : Fin 5)
    (hfail : (responses i).status_code ≠ 200) :
    load_datasets responses i = [] ∧
    ∀ (responses2 : Fin 5 → Response) (j : Fin 5),
      responses2 j = responses j →
      load_datasets responses2 j = load_datasets responses j := by
  constructor
  · unfold load_datasets fetch_data
    rw [if_neg hfail]
  · intro responses2 j hj
    unfold load_datasets
    rw [hj]

/-- C5 witness: the fail-soft theorem instantiated on five failing
responses, dataset 0. -/
theorem loader_failsoft_witness :
    load_datasets (fun _ => ⟨404, []⟩) 0 = [] ∧
    ∀ (responses2 : Fin 5 → Response) (j : Fin 5),
      responses2 j = (fun _ => Response.mk 404 []) j →
      load_datasets responses2 j = load_datasets (fun _ => ⟨404, []⟩) j :=
  loader_failsoft (fun _ => ⟨404, []⟩) 0 (by decide)

end Atlas
